import Mathlib

/-!
Verification of the PEF linker (lld/PEF) against its specification.

The definitions below are shallow embeddings of the C++ sources:
machine integers are represented by their unsigned bit patterns
(natural numbers below 2^32 or 2^16), with wrap-around made explicit.
Each definition names the source function it embeds.
-/

namespace PEFLink

/-! ### 32-bit machine arithmetic helpers -/

/-- Arithmetic (sign-extending) right shift by 16 bits of an int32_t value,
represented by its unsigned 32-bit pattern.  For a pattern with the sign bit
set the vacated high 16 bits are filled with ones (0xFFFF0000). -/
def asr16 (h : Nat) : Nat :=
  if h < 2147483648 then h >>> 16 else (h >>> 16) + 4294901760

/-! ### computePEFHash (lld/PEF/InputFiles.cpp)

Embeds the loop
  for (char c : name)
    hashValue = ((hashValue << 1) - (hashValue >> 16)) ^ (uint8_t)c;
where hashValue is an int32_t: shifts, subtraction and xor act on the 32-bit
two's-complement pattern.  Names are byte strings, modelled as lists of
naturals below 256. -/

/-- One iteration of the computePEFHash loop on the 32-bit pattern h with
input byte c. -/
def pefHashStep (h c : Nat) : Nat :=
  (((h <<< 1) % 4294967296 + 4294967296 - asr16 h) % 4294967296) ^^^ c

/-- The folded hash state after consuming all bytes of the name. -/
def pefHashFold (name : List Nat) : Nat :=
  name.foldl pefHashStep 0

/-- Embeds computePEFHash: the final hash word
  (uint32_t(name.size()) << 16) | ((hashValue ^ (hashValue >> 16)) & 0xFFFF). -/
def computePEFHash (name : List Nat) : Nat :=
  let h := pefHashFold name
  let finalHash := (h ^^^ asr16 h) &&& 65535
  (((name.length % 4294967296) <<< 16) % 4294967296) ||| finalHash

/-! ### Reference formulation of the hash over the signed integers

The specification describes the hash state as a 32-bit signed two's-complement
integer with wrap-around.  The following formulation works over the actual
integers, wrapping into the interval from -2^31 to 2^31 - 1 at each step; it is
proved equivalent to the pattern-level embedding above. -/

/-- Wrap an integer into the signed 32-bit interval from -2^31 to 2^31 - 1. -/
def wrap32 (z : Int) : Int :=
  (z + 2147483648) % 4294967296 - 2147483648

/-- The unsigned 32-bit pattern of a signed 32-bit value. -/
def toPattern (s : Int) : Nat :=
  (s % 4294967296).toNat

/-- The signed 32-bit value of an unsigned 32-bit pattern. -/
def ofPattern (n : Nat) : Int :=
  if n < 2147483648 then (n : Int) else (n : Int) - 4294967296

/-- One hash step over the signed integers: double the state, subtract the
floor of its division by 2^16 (the arithmetic right shift), wrap to 32 bits,
then xor the byte into the low bits of the pattern. -/
def specHashStep (s : Int) (c : Nat) : Int :=
  ofPattern ((toPattern (wrap32 (2 * s - (s - s % 65536) / 65536))) ^^^ c)

/-- The specification's hash word: length in the high 16 bits, the folded
state mixed with its own high half in the low 16 bits. -/
def specPEFHash (name : List Nat) : Nat :=
  let h := toPattern (name.foldl specHashStep 0)
  (name.length <<< 16) ||| ((h ^^^ (h >>> 16)) &&& 65535)

/-! ### Constants and field helpers (llvm/BinaryFormat/PEF.h) -/

/-- Relocation opcode constants from the RelocOpcode enum. -/
def kPEFRelocBySectC : Nat := 0x20
def kPEFRelocBySectD : Nat := 0x21
def kPEFRelocSmSetSectC : Nat := 0x29
def kPEFRelocSmSetSectD : Nat := 0x2A
def kPEFRelocSmByImport : Nat := 0x2B
def kPEFRelocSetPosition : Nat := 0x48
def kPEFRelocLgByImport : Nat := 0x52

/-- Embeds getHashSlotChainCount: the high 14 bits of a hash-slot word. -/
def getHashSlotChainCount (v : Nat) : Nat := (v >>> 18) &&& 0x3FFF

/-- Embeds getHashSlotFirstIndex: the low 18 bits of a hash-slot word. -/
def getHashSlotFirstIndex (v : Nat) : Nat := (v >>> 0) &&& 0x3FFFF

/-! ### Relocation instruction emitters (lld/PEF/RelocWriter.cpp)

Each emitter produces a list of 16-bit instruction words; the conversion of
the composed value to uint16_t is the explicit reduction modulo 2^16. -/

/-- Embeds PEFRelocWriter emitByImport: a one-word SmByImport form for
indices below 256, otherwise the two-word LgByImport pair. -/
def emitByImport (index : Nat) : List Nat :=
  if index < 256 then
    [((kPEFRelocSmByImport <<< 10) ||| (index &&& 0x3FF)) % 65536]
  else
    [((kPEFRelocLgByImport <<< 10) ||| ((index >>> 16) &&& 0x3FF)) % 65536,
     index &&& 0xFFFF]

/-- Embeds emitSetPosition: two instruction words carrying a 26-bit offset. -/
def emitSetPosition (offset : Nat) : List Nat :=
  [((kPEFRelocSetPosition <<< 10) ||| ((offset >>> 16) &&& 0x3FF)) % 65536,
   offset &&& 0xFFFF]

/-- Embeds emitBySectC. -/
def emitBySectC (runLength : Nat) : List Nat :=
  [((kPEFRelocBySectC <<< 10) ||| (runLength &&& 0x3FF)) % 65536]

/-- Embeds emitBySectD. -/
def emitBySectD (runLength : Nat) : List Nat :=
  [((kPEFRelocBySectD <<< 10) ||| (runLength &&& 0x3FF)) % 65536]

/-- Embeds emitSetSectC. -/
def emitSetSectC (index : Nat) : List Nat :=
  [((kPEFRelocSmSetSectC <<< 10) ||| (index &&& 0x3FF)) % 65536]

/-- Embeds emitSetSectD. -/
def emitSetSectD (index : Nat) : List Nat :=
  [((kPEFRelocSmSetSectD <<< 10) ||| (index &&& 0x3FF)) % 65536]

/-! ### Big-endian byte reading (llvm/Support/Endian.h as used by the reader)

Loader-section contents are modelled as lists of bytes.  The C++ code always
guards reads with explicit bounds checks before dereferencing, so reading is
total here and the bounds checks appear at the call sites exactly as in the
source. -/

/-- The byte at index i of the buffer. -/
def byteAt (data : List Nat) (i : Nat) : Nat := data.getD i 0

/-- Embeds endian read32be at a byte offset. -/
def read32be (data : List Nat) (off : Nat) : Nat :=
  byteAt data off * 16777216 + byteAt data (off + 1) * 65536 +
    byteAt data (off + 2) * 256 + byteAt data (off + 3)

/-- The longest NUL-free segment starting a buffer, or none when no NUL
terminator exists (memchr in PEFObjectFile getLoaderString). -/
def takeUntilNul : List Nat → Option (List Nat)
  | [] => none
  | b :: bs => if b = 0 then some [] else (takeUntilNul bs).map (fun s => b :: s)

/-- Embeds PEFObjectFile getLoaderString: bounds-check the offset against the
loader section size, then read up to the NUL terminator. -/
def getLoaderString (data : List Nat) (off : Nat) : Option (List Nat) :=
  if off ≥ data.length then none else takeUntilNul (data.drop off)

/-! ### Shared-library export lookup (lld/PEF/InputFiles.cpp findExport)

The function receives the parsed LoaderInfoHeader fields and the raw bytes of
the loader section, exactly the two inputs the C++ function obtains from the
PEFObjectFile.  It returns the symbol class of the matching export - the code
reads only the ClassAndName word of the matching ExportedSymbol entry and
returns a found marker plus the class through getLastSymbolClass. -/

/-- The LoaderInfoHeader fields consulted by findExport. -/
structure LoaderInfo where
  loaderStringsOffset : Nat
  exportHashOffset : Nat
  exportHashTablePower : Nat
  exportedSymbolCount : Nat
deriving DecidableEq

/-- Offset of the export key table within the loader section:
hash-slot table base plus 4 bytes per slot. -/
def keyTableOffset (info : LoaderInfo) : Nat :=
  info.exportHashOffset + 2 ^ info.exportHashTablePower * 4

/-- Offset of the exported-symbol table: key table base plus 4 bytes per
exported symbol. -/
def symbolTableOffset (info : LoaderInfo) : Nat :=
  keyTableOffset info + info.exportedSymbolCount * 4

/-- The stored name of the exported symbol at a given index: traverse its
ClassAndName word for the 24-bit name offset and read the string from the
loader string table. -/
def exportedNameAt (info : LoaderInfo) (data : List Nat) (i : Nat) : Option (List Nat) :=
  let classAndName := read32be data (symbolTableOffset info + i * 10)
  getLoaderString data (info.loaderStringsOffset + (classAndName &&& 0xFFFFFF))

/-- The chain-walking loop of findExport.  The first argument of the
recursion is the current key index, the second the number of chain entries
still to inspect.  Breaking out of the C++ loop returns none; continue moves
to the next index. -/
def scanExportChain (info : LoaderInfo) (data : List Nat) (name : List Nat)
    (fullHashWord : Nat) : Nat → Nat → Option Nat
  | _, 0 => none
  | keyIndex, rem + 1 =>
    if keyIndex ≥ info.exportedSymbolCount then none
    else if keyTableOffset info + keyIndex * 4 + 4 > data.length then none
    else
      let keyValue := read32be data (keyTableOffset info + keyIndex * 4)
      if keyValue ≠ fullHashWord then
        scanExportChain info data name fullHashWord (keyIndex + 1) rem
      else if symbolTableOffset info + keyIndex * 10 + 10 > data.length then none
      else
        let classAndName := read32be data (symbolTableOffset info + keyIndex * 10)
        match getLoaderString data
            (info.loaderStringsOffset + (classAndName &&& 0xFFFFFF)) with
        | none => scanExportChain info data name fullHashWord (keyIndex + 1) rem
        | some s =>
          if s ≠ name then scanExportChain info data name fullHashWord (keyIndex + 1) rem
          else some (classAndName >>> 24)

/-- Embeds SharedLibraryFile findExport: hash the name, index the slot table,
and walk the chain of key entries, confirming candidates by string equality.
The result is the symbol class of the match. -/
def findExport (info : LoaderInfo) (data : List Nat) (name : List Nat) : Option Nat :=
  if info.exportedSymbolCount = 0 then none
  else
    let fullHashWord := computePEFHash name
    let hashTableSize := 2 ^ info.exportHashTablePower
    let slotIndex := fullHashWord % hashTableSize
    if info.exportHashOffset + slotIndex * 4 + 4 > data.length then none
    else
      let slotValue := read32be data (info.exportHashOffset + slotIndex * 4)
      let chainCount := getHashSlotChainCount slotValue
      let firstIndex := getHashSlotFirstIndex slotValue
      if chainCount = 0 then none
      else scanExportChain info data name fullHashWord firstIndex chainCount

/-! ### Symbols and the symbol table (lld/PEF/Symbols.h, SymbolTable.cpp)

Symbol names are byte strings.  Files and libraries are identified by
numeric ids.  The symbol table is the insertion-ordered symbol vector; the
name map of the C++ code always agrees with it (one symbol per name), so
lookup is the first list entry with the queried name. -/

/-- The three symbol states of Symbols.h. -/
inductive Symbol where
  | defined (name : List Nat) (fileId : Nat) (value : Nat) (sectionIndex : Int)
      (symClass : Nat)
  | undefined (name : List Nat) (fileId : Nat) (symClass : Nat)
  | imported (name : List Nat) (libId : Nat) (symClass : Nat) (weak : Bool)
deriving DecidableEq

/-- The interned name of a symbol. -/
def Symbol.name : Symbol → List Nat
  | .defined n _ _ _ _ => n
  | .undefined n _ _ => n
  | .imported n _ _ _ => n

/-- Embeds Symbol isDefined. -/
def Symbol.isDefined : Symbol → Bool
  | .defined _ _ _ _ _ => true
  | _ => false

/-- Embeds Symbol isUndefined. -/
def Symbol.isUndefined : Symbol → Bool
  | .undefined _ _ _ => true
  | _ => false

/-- Embeds Symbol isImported. -/
def Symbol.isImported : Symbol → Bool
  | .imported _ _ _ _ => true
  | _ => false

/-- The symbol table: the insertion-ordered symVector. -/
structure SymbolTable where
  symVector : List Symbol
deriving DecidableEq

/-- Embeds SymbolTable find (and the lookup part of insert): the symbol with
the queried name, if any. -/
def SymbolTable.find (st : SymbolTable) (name : List Nat) : Option Symbol :=
  st.symVector.find? (fun s => s.name = name)

/-- Embeds SymbolTable getDefinedSymbols. -/
def getDefinedSymbols (st : SymbolTable) : List Symbol :=
  st.symVector.filter (fun s => s.isDefined)

/-- Embeds SymbolTable getUndefinedSymbols. -/
def getUndefinedSymbols (st : SymbolTable) : List Symbol :=
  st.symVector.filter (fun s => s.isUndefined)

/-- Embeds SymbolTable getImportedSymbols. -/
def getImportedSymbols (st : SymbolTable) : List Symbol :=
  st.symVector.filter (fun s => s.isImported)

/-- The configuration fields consulted by the embedded code (Config.h). -/
structure Config where
  entry : List Nat
  verbose : Bool
  allowUndefined : Bool
  baseCode : Nat
deriving DecidableEq

/-- Embeds SymbolTable addDefined.  Returns the updated table, the symbol the
C++ function returns, and whether a duplicate-definition error was emitted.
An existing Defined symbol is returned unchanged with an error unless
allowUndefined is set; an existing symbol in any other state is replaced in
place by the new definition; otherwise the definition is appended. -/
def addDefined (cfg : Config) (st : SymbolTable) (name : List Nat)
    (fileId : Nat) (value : Nat) (sectionIndex : Int) (symClass : Nat) :
    SymbolTable × Symbol × Bool :=
  match st.find name with
  | some existing =>
    if existing.isDefined then
      (st, existing, !cfg.allowUndefined)
    else
      let newSym := Symbol.defined name fileId value sectionIndex symClass
      ({ symVector := st.symVector.replace existing newSym }, newSym, false)
  | none =>
    let newSym := Symbol.defined name fileId value sectionIndex symClass
    ({ symVector := st.symVector ++ [newSym] }, newSym, false)

/-- Embeds SymbolTable addUndefined: an existing symbol of the name leaves
the table unchanged; otherwise a new Undefined symbol is appended. -/
def addUndefined (st : SymbolTable) (name : List Nat) (fileId : Nat)
    (symClass : Nat) : SymbolTable :=
  match st.find name with
  | some _ => st
  | none =>
    { symVector := st.symVector ++ [Symbol.undefined name fileId symClass] }

/-- Embeds SymbolTable addImported: an existing Defined or Imported symbol
leaves the table unchanged; an Undefined symbol is replaced in place by the
import; otherwise the import is appended. -/
def addImported (st : SymbolTable) (name : List Nat) (libId : Nat)
    (symClass : Nat) (weak : Bool) : SymbolTable :=
  match st.find name with
  | some existing =>
    if existing.isDefined then st
    else if existing.isImported then st
    else
      { symVector :=
          st.symVector.replace existing (Symbol.imported name libId symClass weak) }
  | none =>
    { symVector := st.symVector ++ [Symbol.imported name libId symClass weak] }

/-! ### Driver resolution pass and error checks (lld/PEF/Driver.cpp) -/

/-- A loaded shared library as the driver sees it: the parsed loader info,
the loader-section bytes, and the weak flag from the command line. -/
structure DriverLib where
  info : LoaderInfo
  data : List Nat
  weak : Bool
deriving DecidableEq

/-- The inner loop of the driver resolution pass: query each library in
command-line order with findExport; the first match registers the import
with the class returned by the lookup and the weak flag of the library. -/
def resolveSymbolAgainstLibs (st : SymbolTable) (name : List Nat) :
    List (Nat × DriverLib) → SymbolTable
  | [] => st
  | (libIdx, lib) :: rest =>
    match findExport lib.info lib.data name with
    | some cls => addImported st name libIdx cls lib.weak
    | none => resolveSymbolAgainstLibs st name rest

/-- Embeds the Phase 2.2 loop of link(): walk the snapshot of undefined
symbols and try to resolve each against the import libraries. -/
def resolveUndefinedSymbols (libs : List DriverLib) (st : SymbolTable) :
    SymbolTable :=
  let undefinedSymbols := getUndefinedSymbols st
  if undefinedSymbols.isEmpty || libs.isEmpty then st
  else
    (undefinedSymbols.map Symbol.name).foldl
      (fun acc name => resolveSymbolAgainstLibs acc name libs.enum) st

/-- Embeds the post-resolution check of link(): one error per remaining
undefined symbol unless the configuration allows undefined symbols.
The result is the number of errors emitted. -/
def undefinedErrors (cfg : Config) (st : SymbolTable) : Nat :=
  let undefinedSymbols := getUndefinedSymbols st
  if !undefinedSymbols.isEmpty && !cfg.allowUndefined then
    undefinedSymbols.length
  else 0

/-- Embeds the entry-point check of link().  In the source the whole check,
including its two error calls, sits inside the if (config->verbose) block of
the symbol-table summary, so no error is emitted unless verbose is set. -/
def entryPointErrors (cfg : Config) (st : SymbolTable) : Nat :=
  if cfg.verbose then
    if !cfg.entry.isEmpty then
      match st.find cfg.entry with
      | none => 1
      | some s => if !s.isDefined then 1 else 0
    else 0
  else 0

/-! ### Loader-section building (lld/PEF/Writer.cpp) -/

/-- The ImportedLibraryInfo record built by collectImports. -/
structure ImportedLibraryInfo where
  name : List Nat
  symbols : List Symbol
  firstImportedSymbol : Nat
deriving DecidableEq

/-- The byte string InterfaceLib. -/
def interfaceLibName : List Nat :=
  [73, 110, 116, 101, 114, 102, 97, 99, 101, 76, 105, 98]

/-- Embeds Writer collectImports: gather the symbols still Undefined and
place them all under the single hardcoded library InterfaceLib, with
firstImportedSymbol 0.  Returns the library list and the total
imported-symbol count. -/
def collectImports (st : SymbolTable) : List ImportedLibraryInfo × Nat :=
  let undefinedSymbols := getUndefinedSymbols st
  if undefinedSymbols.isEmpty then ([], 0)
  else
    ([{ name := interfaceLibName, symbols := undefinedSymbols,
        firstImportedSymbol := 0 }],
     undefinedSymbols.length)

/-- Embeds PEFRelocWriter getImportIndex: position of the symbol in the
concatenation of the libraries' symbol lists. -/
def getImportIndex (libs : List ImportedLibraryInfo) (sym : Symbol) : Nat :=
  let flat := libs.flatMap (fun lib => lib.symbols)
  match flat.indexOf? sym with
  | some i => i
  | none => 0

/-- Embeds the export hash-table portion of Writer createLoaderSection:
the hash-table power written at offset 48 is the constant 0, the slot table
is the single word 0xFFFFFFFF, and the key table holds the ascending
integers 0, 1, ... below the exported-symbol count. -/
def createExportTables (st : SymbolTable) : Nat × List Nat × List Nat :=
  let exportedSymbolCount := (getDefinedSymbols st).length
  (0, [4294967295], List.range exportedSymbolCount)

/-- Embeds the MainSection and MainOffset computation of
createLoaderSection: the entry symbol's section index and value when it
exists and is Defined, otherwise -1 and 0. -/
def loaderMainFields (cfg : Config) (st : SymbolTable) : Int × Nat :=
  let entryPoint := if cfg.entry.isEmpty then none else st.find cfg.entry
  match entryPoint with
  | some (Symbol.defined _ _ value sectionIndex _) => (sectionIndex, value)
  | _ => (-1, 0)

/-! ### Section layout (lld/PEF/OutputSection.cpp, Driver.cpp) -/

/-- The fields of an input section consulted by layout: the stored log2
alignment of its header and its size. -/
structure InputSectionL where
  alignLog : Nat
  size : Nat
deriving DecidableEq

/-- Embeds llvm alignTo: round value up to the next multiple of align. -/
def alignTo (value align : Nat) : Nat :=
  (value + align - 1) / align * align

/-- The loop of OutputSection finalizeLayout: starting from a running
offset, align up to each member section's alignment (2 to its stored log2),
assign the member the virtual address of the output section plus the aligned
offset, and advance by the member's size.  Returns the member virtual
addresses and the final offset, which becomes the section size. -/
def finalizeLayoutAux (virtualAddress : Nat) (offset : Nat) :
    List InputSectionL → List Nat × Nat
  | [] => ([], offset)
  | isec :: rest =>
    let o := alignTo offset (2 ^ isec.alignLog)
    let r := finalizeLayoutAux virtualAddress (o + isec.size) rest
    ((virtualAddress + o) :: r.1, r.2)

/-- Embeds OutputSection finalizeLayout: the members' assigned virtual
addresses and the output section's size. -/
def finalizeLayout (virtualAddress : Nat) (isecs : List InputSectionL) :
    List Nat × Nat :=
  finalizeLayoutAux virtualAddress 0 isecs

/-- Embeds the layout loop of link(): walk the output sections in order,
skipping empty ones; align the address cursor to the output section's
alignment, which is still the initial 16 because setAlignment only runs
inside finalizeLayout afterwards; assign the section and member addresses;
advance by the section size.  Returns one entry per non-empty output
section: its virtual address and its members' virtual addresses. -/
def driverLayoutAux (addr : Nat) : List (List InputSectionL) →
    List (Nat × List Nat)
  | [] => []
  | osec :: rest =>
    if osec.isEmpty then driverLayoutAux addr rest
    else
      let osecAddr := alignTo addr 16
      let (vas, size) := finalizeLayout osecAddr osec
      (osecAddr, vas) :: driverLayoutAux (osecAddr + size) rest

/-- The driver layout starting from the configured code base address. -/
def driverLayout (cfg : Config) (osecs : List (List InputSectionL)) :
    List (Nat × List Nat) :=
  driverLayoutAux cfg.baseCode osecs

/-! ### Relocation stream regeneration (lld/PEF/RelocWriter.cpp)

processSection decodes the 16-bit instruction words captured from each input
section and re-emits a stream for the output section.  The state carries the
emitted instruction words, the relocation cursor, and the current code and
data section indices.  Opcodes are the high 6 bits of a word, so the case
labels for SetPosition (0x48) and LgByImport (0x52), which do not fit in
6 bits, can never match; they are embedded as written. -/

/-- The mutable state of PEFRelocWriter during processSection. -/
structure RelocState where
  instructions : List Nat
  relocAddress : Nat
  sectionC : Int
  sectionD : Int
deriving DecidableEq

/-- Append emitted instruction words. -/
def emitWords (st : RelocState) (ws : List Nat) : RelocState :=
  { st with instructions := st.instructions ++ ws }

/-- The decode-and-re-emit loop over one input section's relocation words.
Arguments: the section's base offset inside the output section, the
remaining input words, the decode position, the needSetPosition flag, and
the writer state.  Returns the flag and state left for the next input
section. -/
def processLoop (isecBase : Nat) : List Nat → Nat → Bool → RelocState →
    Bool × RelocState
  | [], _, needSP, st => (needSP, st)
  | instr :: rest, pos, needSP, st =>
    let opcode := (instr >>> 10) &&& 0x3F
    let operand := instr &&& 0x3FF
    if opcode = kPEFRelocBySectC || opcode = kPEFRelocBySectD then
      let st1 :=
        if needSP || pos ≠ st.relocAddress then
          { emitWords st (emitSetPosition pos) with relocAddress := pos }
        else st
      let st2 :=
        if opcode = kPEFRelocBySectC then emitWords st1 (emitBySectC operand)
        else emitWords st1 (emitBySectD operand)
      let newAddr := st2.relocAddress + 4 * (operand + 1)
      processLoop isecBase rest newAddr false { st2 with relocAddress := newAddr }
    else if opcode = kPEFRelocSmByImport || opcode = kPEFRelocLgByImport then
      if opcode = kPEFRelocLgByImport then
        match rest with
        | instr2 :: rest2 =>
          let oldIndex := (operand <<< 16) ||| instr2
          let st1 :=
            if needSP || pos ≠ st.relocAddress then
              { emitWords st (emitSetPosition pos) with relocAddress := pos }
            else st
          let st2 := emitWords st1 (emitByImport oldIndex)
          let newAddr := st2.relocAddress + 4
          processLoop isecBase rest2 newAddr false
            { st2 with relocAddress := newAddr }
        | [] =>
          let st1 :=
            if needSP || pos ≠ st.relocAddress then
              { emitWords st (emitSetPosition pos) with relocAddress := pos }
            else st
          let st2 := emitWords st1 (emitByImport operand)
          let newAddr := st2.relocAddress + 4
          (false, { st2 with relocAddress := newAddr })
      else
        let st1 :=
          if needSP || pos ≠ st.relocAddress then
            { emitWords st (emitSetPosition pos) with relocAddress := pos }
          else st
        let st2 := emitWords st1 (emitByImport operand)
        let newAddr := st2.relocAddress + 4
        processLoop isecBase rest newAddr false { st2 with relocAddress := newAddr }
    else if opcode = kPEFRelocSetPosition then
      match rest with
      | instr2 :: rest2 =>
        let newPos := ((operand <<< 16) ||| instr2) + isecBase
        processLoop isecBase rest2 newPos true st
      | [] => (needSP, st)
    else if opcode = kPEFRelocSmSetSectC then
      processLoop isecBase rest pos needSP
        (emitWords { st with sectionC := (operand : Int) } (emitSetSectC operand))
    else if opcode = kPEFRelocSmSetSectD then
      processLoop isecBase rest pos needSP
        (emitWords { st with sectionD := (operand : Int) } (emitSetSectD operand))
    else
      processLoop isecBase rest pos needSP (emitWords st [instr])

/-- The outer loop of processSection over the output section's input
sections: each contributes its captured relocation words, with the decode
position starting at the member's offset inside the output section. -/
def processInputSections : List (Nat × List Nat) → Bool → RelocState →
    Bool × RelocState
  | [], needSP, st => (needSP, st)
  | (isecBase, relocs) :: rest, needSP, st =>
    if relocs.isEmpty then processInputSections rest needSP st
    else
      let (needSP2, st2) := processLoop isecBase relocs isecBase needSP st
      processInputSections rest needSP2 st2

/-- Embeds PEFRelocWriter processSection for one output section: the
relocation cursor is reset to 0 and needSetPosition starts true. -/
def processSection (isecs : List (Nat × List Nat)) (st : RelocState) :
    RelocState :=
  (processInputSections isecs true { st with relocAddress := 0 }).2

/-! ### Declarative descriptions and concrete scenario data used by the
theorems below -/

/-- A chain entry is a confirmed candidate for a lookup of the given name:
its key word equals the full hash word and the stored export name equals the
queried name. -/
def chainCandidate (info : LoaderInfo) (data name : List Nat) (i : Nat) : Prop :=
  read32be data (keyTableOffset info + i * 4) = computePEFHash name ∧
  exportedNameAt info data i = some name

/-- The hash-slot word findExport reads for a given name. -/
def slotValueFor (info : LoaderInfo) (data name : List Nat) : Nat :=
  read32be data
    (info.exportHashOffset +
      (computePEFHash name % 2 ^ info.exportHashTablePower) * 4)

/-- The byte string main. -/
def mainName : List Nat := [109, 97, 105, 110]

/-- The byte string SysBeep. -/
def sysBeepName : List Nat := [83, 121, 115, 66, 101, 101, 112]

/-- The byte string OptionalProc. -/
def optionalProcName : List Nat :=
  [79, 112, 116, 105, 111, 110, 97, 108, 80, 114, 111, 99]

/-- The default configuration: entry main, not verbose, undefined symbols
not allowed, code base 0. -/
def cfgDefault : Config :=
  { entry := mainName, verbose := false, allowUndefined := false, baseCode := 0 }

/-- The default configuration with verbose set. -/
def cfgVerbose : Config :=
  { entry := mainName, verbose := true, allowUndefined := false, baseCode := 0 }

/-- An empty symbol table. -/
def emptyTable : SymbolTable := { symVector := [] }

/-- Scenario S6 seed: a table already holding a definition of main. -/
def stMainDefined : SymbolTable :=
  { symVector := [Symbol.defined mainName 0 0 0 0] }

/-- Scenario S4 outcome: a table whose only symbol is SysBeep, imported from
library 0 with class TVector, after successful resolution. -/
def stSysBeepImported : SymbolTable :=
  { symVector := [Symbol.imported sysBeepName 0 2 false] }

/-- Scenario S5 seed: a table with the single undefined symbol OptionalProc. -/
def stOptionalProc : SymbolTable :=
  { symVector := [Symbol.undefined optionalProcName 0 0] }

/-- Scenario S5 library: a weak library exporting nothing. -/
def optionalLib : DriverLib :=
  { info := { loaderStringsOffset := 0, exportHashOffset := 0,
              exportHashTablePower := 0, exportedSymbolCount := 0 },
    data := [], weak := true }

/-- A table exporting the single symbol main (for the export tables). -/
def stMainExported : SymbolTable :=
  { symVector := [Symbol.defined mainName 0 0 0 2] }

/-- A malformed shared library for the lookup counterexample: one exported
symbol named a, but a hash-slot word of zero, so the chain is empty.  Layout:
slot table at 0 (4 bytes), key table at 4, symbol table at 8 (10 bytes),
strings at 18. -/
def libChainZeroInfo : LoaderInfo :=
  { loaderStringsOffset := 18, exportHashOffset := 0,
    exportHashTablePower := 0, exportedSymbolCount := 1 }

/-- Loader-section bytes of the malformed library: zero slot word, zero key
word, an ExportedSymbol with class 2 and name offset 0, and the string a. -/
def libChainZeroData : List Nat :=
  [0, 0, 0, 0,
   0, 0, 0, 0,
   2, 0, 0, 0, 0, 0, 0, 0, 0, 0,
   97, 0]

/-- A well-formed single-export library for the lookup witness: the slot word
has chain count 1 and first index 0, the key word is the hash of a, and the
symbol entry has class 2 and name offset 0. -/
def libWellFormedInfo : LoaderInfo :=
  { loaderStringsOffset := 18, exportHashOffset := 0,
    exportHashTablePower := 0, exportedSymbolCount := 1 }

/-- Loader-section bytes of the well-formed library: slot word 0x00040000
(chain count 1, first index 0), key word 0x00010061 (the hash of a), the
symbol entry, and the string a. -/
def libWellFormedData : List Nat :=
  [0, 4, 0, 0,
   0, 1, 0, 97,
   2, 0, 0, 0, 0, 0, 0, 0, 0, 0,
   97, 0]

/-- Scenario for the import-index claim: the per-file imported-symbol name
table of the input object, naming imports A, B, C and D. -/
def fileImportNames : List (List Nat) := [[65], [66], [67], [68]]

/-- The symbol table for that scenario: only D is still undefined. -/
def stOnlyD : SymbolTable := { symVector := [Symbol.undefined [68] 2 0] }

/-! ## Theorems -/

/-! ### Arithmetic helper lemmas -/

lemma xor_mod_two_pow (a b n : Nat) :
    (a ^^^ b) % 2 ^ n = a % 2 ^ n ^^^ b % 2 ^ n := by
  apply Nat.eq_of_testBit_eq
  intro i
  simp only [Nat.testBit_mod_two_pow, Nat.testBit_xor]
  by_cases hi : i < n <;> simp [hi]

lemma toPattern_ofPattern (h : Nat) (hh : h < 4294967296) :
    toPattern (ofPattern h) = h := by
  unfold toPattern ofPattern
  split <;> omega

lemma toPattern_wrap32 (z : Int) :
    toPattern (wrap32 z) = (z % 4294967296).toNat := by
  unfold toPattern wrap32
  omega

lemma pattern_step (h c : Nat) (hh : h < 4294967296) (hc : c < 256) :
    specHashStep (ofPattern h) c = ofPattern (pefHashStep h c) ∧
      pefHashStep h c < 4294967296 := by
  have hbound : pefHashStep h c < 4294967296 := by
    have h1 : (((h <<< 1) % 4294967296 + 4294967296 - asr16 h) % 4294967296)
        < 2 ^ 32 := by
      have := Nat.mod_lt ((h <<< 1) % 4294967296 + 4294967296 - asr16 h)
        (show 0 < 4294967296 by norm_num)
      omega
    have h2 : c < 2 ^ 32 := by omega
    have := Nat.xor_lt_two_pow h1 h2
    unfold pefHashStep
    omega
  refine ⟨?_, hbound⟩
  unfold specHashStep
  congr 1
  congr 1
  have hediv : (ofPattern h - ofPattern h % 65536) / 65536
      = ofPattern h / 65536 := by omega
  rw [hediv, toPattern_wrap32]
  clear hediv
  unfold asr16 ofPattern
  rw [Nat.shiftLeft_eq, Nat.shiftRight_eq_div_pow]
  norm_num
  split
  case isTrue hlt =>
    omega
  case isFalse hge =>
    have h16 : ((h : Int) - 4294967296) / 65536 = (h : Int) / 65536 - 65536 := by
      omega
    rw [h16]
    omega

lemma fold_correspond (name : List Nat) (hb : ∀ b ∈ name, b < 256) :
    ∀ h : Nat, h < 4294967296 →
      name.foldl specHashStep (ofPattern h) = ofPattern (name.foldl pefHashStep h) ∧
        name.foldl pefHashStep h < 4294967296 := by
  induction name with
  | nil => intro h hh; exact ⟨rfl, hh⟩
  | cons c cs ih =>
    intro h hh
    have hc : c < 256 := hb c (List.mem_cons_self c cs)
    have hstep := pattern_step h c hh hc
    have hb' : ∀ b ∈ cs, b < 256 := fun b hbmem => hb b (List.mem_cons_of_mem c hbmem)
    have := ih hb' (pefHashStep h c) hstep.2
    simp only [List.foldl_cons, hstep.1]
    exact this

/-! ### C3: the export hash computation -/

/-- C3.  For every byte string name of length below 2^16, computePEFHash
agrees with the specification's signed 32-bit wrap-around formulation
(name_length << 16) | ((h XOR (h >> 16)) & 0xFFFF), and its upper 16 bits
are the name length.  Instantiating at the bytes of main gives upper bits
0x0004. -/
theorem c3_computePEFHash_matches_spec (name : List Nat)
    (hb : ∀ b ∈ name, b < 256) (hlen : name.length < 65536) :
    computePEFHash name = specPEFHash name ∧
      computePEFHash name >>> 16 = name.length := by
  have h0 : (0 : Nat) < 4294967296 := by norm_num
  have hcorr := fold_correspond name hb 0 h0
  have hfold : name.foldl specHashStep 0 = ofPattern (pefHashFold name) := by
    have : (0 : Int) = ofPattern 0 := by norm_num [ofPattern]
    rw [pefHashFold, ← hcorr.1, this]
  have hH : pefHashFold name < 4294967296 := hcorr.2
  set H := pefHashFold name with hHdef
  have hlow : (H ^^^ asr16 H) &&& 65535 = (H ^^^ (H >>> 16)) &&& 65535 := by
    have e1 : (65535 : Nat) = 2 ^ 16 - 1 := by norm_num
    rw [e1, Nat.and_pow_two_sub_one_eq_mod, Nat.and_pow_two_sub_one_eq_mod,
      xor_mod_two_pow, xor_mod_two_pow]
    congr 1
    unfold asr16
    split
    · rfl
    · omega
  have hsmall : (H ^^^ asr16 H) &&& 65535 < 65536 := by
    have e1 : (65535 : Nat) = 2 ^ 16 - 1 := by norm_num
    rw [e1, Nat.and_pow_two_sub_one_eq_mod]
    exact Nat.mod_lt _ (by norm_num)
  have hshift : ((name.length % 4294967296) <<< 16) % 4294967296
      = name.length <<< 16 := by
    have hlen32 : name.length % 4294967296 = name.length :=
      Nat.mod_eq_of_lt (by omega)
    rw [hlen32, Nat.shiftLeft_eq]
    have hmul : name.length * 2 ^ 16 < 4294967296 := by
      calc name.length * 2 ^ 16 < 65536 * 2 ^ 16 := by
            exact Nat.mul_lt_mul_of_lt_of_le hlen (le_refl _) (by norm_num)
        _ = 4294967296 := by norm_num
    exact Nat.mod_eq_of_lt hmul
  have hcode : computePEFHash name =
      (name.length <<< 16) ||| ((H ^^^ asr16 H) &&& 65535) := by
    simp only [computePEFHash, ← hHdef]
    rw [hshift]
  constructor
  · rw [hcode, hlow]
    unfold specPEFHash
    rw [hfold]
    rw [toPattern_ofPattern H hH]
  · rw [hcode]
    have hor : (name.length <<< 16) ||| ((H ^^^ asr16 H) &&& 65535)
        = 2 ^ 16 * name.length + ((H ^^^ asr16 H) &&& 65535) := by
      rw [Nat.shiftLeft_eq, Nat.mul_comm]
      exact (Nat.mul_add_lt_is_or hsmall _).symm
    rw [hor, Nat.shiftRight_eq_div_pow]
    omega

/-- C3 witness: at the concrete name main the hypotheses hold and the hash
word has 0x0004 in its upper 16 bits. -/
theorem c3_computePEFHash_matches_spec_witness :
    (∀ b ∈ mainName, b < 256) ∧ mainName.length < 65536 ∧
      (computePEFHash mainName = specPEFHash mainName ∧
        computePEFHash mainName >>> 16 = 4) :=
  ⟨by decide, by decide, by
    have h := c3_computePEFHash_matches_spec mainName (by decide) (by decide)
    simpa [mainName] using h⟩

/-! ### C9: the entry-point check is gated on verbose -/

/-- C9.  With the entry symbol absent from the table, the driver emits no
error when verbose is off, and one error when verbose is on; the writer then
records MainSection -1 and MainOffset 0 instead of failing.  The claim that
the link fails regardless of the verbose option is contradicted by the first
equation. -/
theorem c9_entry_check_gated_by_verbose :
    entryPointErrors cfgDefault emptyTable = 0 ∧
      entryPointErrors cfgVerbose emptyTable = 1 ∧
      loaderMainFields cfgDefault emptyTable = (-1, 0) := by decide

/-! ### C1: collectImports ignores Imported symbols -/

/-- C1.  On the scenario table holding exactly one Imported symbol (SysBeep
resolved from a library) and no Undefined symbol, collectImports emits no
imported library at all and a total imported-symbol count of 0, because it
collects Undefined symbols only; the claim requires one library with
ImportedSymbolCount 1 and FirstImportedSymbol 0. -/
theorem c1_collectImports_ignores_imported :
    collectImports stSysBeepImported = ([], 0) ∧
      (getImportedSymbols stSysBeepImported).length = 1 := by decide

/-! ### C2: the export hash table is a placeholder -/

/-- C2.  Exporting the single symbol main, the writer emits hash-table power
0, the single slot word 0xFFFFFFFF and the key table [0], whereas the claim
requires the key to be the hash word 0x00040250 of main and the slot to
cover export index 0; the slot's first index is 262143, so the well-formed
range condition fails. -/
theorem c2_export_hash_placeholder :
    createExportTables stMainExported = (0, [4294967295], [0]) ∧
      computePEFHash mainName = 262736 ∧
      (0 : Nat) ≠ computePEFHash mainName ∧
      getHashSlotFirstIndex 4294967295 = 262143 ∧
      getHashSlotChainCount 4294967295 = 16383 ∧
      ¬ getHashSlotFirstIndex 4294967295 ≤ 0 := by decide

/-! ### C6: undefined symbols after resolution -/

/-- C6 counterexample.  In the weak-library-miss scenario (an object
references OptionalProc, the only library is a weak one exporting nothing),
the driver reports an undefined-symbol error under the default
configuration, the symbol remains undefined, and collectImports emits one
imported library, falsifying the claim that the link succeeds with
ImportedLibraryCount 0. -/
theorem c6_weak_library_miss_counterexample :
    undefinedErrors cfgDefault (resolveUndefinedSymbols [optionalLib] stOptionalProc) = 1 ∧
      getUndefinedSymbols (resolveUndefinedSymbols [optionalLib] stOptionalProc) ≠ [] ∧
      (collectImports (resolveUndefinedSymbols [optionalLib] stOptionalProc)).1.length = 1 := by
  decide

/-- C6 as amended.  After the resolution pass a remaining Undefined symbol
is an error exactly unless the configuration permits undefined symbols -
weak libraries grant no exemption: in the weak-miss scenario the default
configuration fails the link, and when undefined symbols are permitted the
missing symbol is emitted as an import of the hardcoded library
InterfaceLib, so ImportedLibraryCount is 1. -/
theorem c6_undefined_errors_amended :
    (∀ cfg st, undefinedErrors cfg st = 0 ↔
      (getUndefinedSymbols st = [] ∨ cfg.allowUndefined = true)) ∧
      undefinedErrors cfgDefault (resolveUndefinedSymbols [optionalLib] stOptionalProc) ≠ 0 ∧
      (collectImports (resolveUndefinedSymbols [optionalLib] stOptionalProc)).2 = 1 := by
  refine ⟨fun cfg st => ?_, by decide, by decide⟩
  cases hA : cfg.allowUndefined <;> cases hU : getUndefinedSymbols st <;>
    simp [undefinedErrors, hA, hU]

/-! ### C7: duplicate definitions keep the first symbol -/

/-- C7.  When addDefined is called for a name already in the Defined state,
the table is unchanged, the existing Defined symbol is returned, and the
duplicate-definition error is emitted exactly when allowUndefined is not
set. -/
theorem c7_addDefined_keeps_first (cfg : Config) (st : SymbolTable)
    (name : List Nat) (fileId value : Nat) (sectionIndex : Int) (symClass : Nat)
    (sym : Symbol) (hfind : st.find name = some sym)
    (hdef : sym.isDefined = true) :
    addDefined cfg st name fileId value sectionIndex symClass
      = (st, sym, !cfg.allowUndefined) := by
  unfold addDefined
  rw [hfind]
  simp [hdef]

/-- C7 witness: a second definition of main against a table already defining
main, under the default configuration, returns the original symbol with an
error; the same call with allowUndefined set returns it silently. -/
theorem c7_addDefined_keeps_first_witness :
    stMainDefined.find mainName = some (Symbol.defined mainName 0 0 0 0) ∧
      (Symbol.defined mainName 0 0 0 0).isDefined = true ∧
      addDefined cfgDefault stMainDefined mainName 1 4 0 0
        = (stMainDefined, Symbol.defined mainName 0 0 0 0, true) :=
  ⟨by decide, by decide, by
    have h := c7_addDefined_keeps_first cfgDefault stMainDefined mainName 1 4 0 0
      (Symbol.defined mainName 0 0 0 0) (by decide) (by decide)
    simpa [cfgDefault] using h⟩

/-! ### C10: the ByImport encoding threshold -/

/-- C10.  For import indices in the uint32_t domain, emitByImport produces
the one-word SmByImport form exactly when the index is below 256; otherwise
it produces the two-word LgByImport pair whose first word carries the bits
above 16 in its 10-bit operand and whose second word carries the low
16 bits.  In particular indices 256 through 1023 take the two-word form. -/
theorem c10_emitByImport_threshold (i : Nat) (hi : i < 4294967296) :
    ((emitByImport i).length = 1 ↔ i < 256) ∧
      (i < 256 → emitByImport i = [44032 + i]) ∧
      (256 ≤ i → emitByImport i = [18432 + ((i >>> 16) &&& 1023), i &&& 65535]) ∧
      (256 ≤ i → (emitByImport i).length = 2) := by
  have e10 : (1023 : Nat) = 2 ^ 10 - 1 := by norm_num
  by_cases hsmall : i < 256
  · have hmask : i &&& 1023 = i := by
      rw [e10, Nat.and_pow_two_sub_one_eq_mod]
      exact Nat.mod_eq_of_lt (by omega)
    have hor : (44032 : Nat) ||| i = 44032 + i := by
      have : (44032 : Nat) = 2 ^ 10 * 43 := by norm_num
      rw [this]
      exact (Nat.mul_add_lt_is_or (by omega) 43).symm
    have hval : ((kPEFRelocSmByImport <<< 10) ||| (i &&& 1023)) % 65536
        = 44032 + i := by
      rw [hmask]
      have hsh : kPEFRelocSmByImport <<< 10 = 44032 := by decide
      rw [hsh, hor]
      exact Nat.mod_eq_of_lt (by omega)
    simp [emitByImport, hsmall, hval]
  · have hx : (i >>> 16) &&& 1023 < 1024 := by
      rw [e10, Nat.and_pow_two_sub_one_eq_mod]
      exact Nat.mod_lt _ (by norm_num)
    have hor : (83968 : Nat) ||| ((i >>> 16) &&& 1023)
        = 83968 + ((i >>> 16) &&& 1023) := by
      have : (83968 : Nat) = 2 ^ 10 * 82 := by norm_num
      rw [this]
      exact (Nat.mul_add_lt_is_or hx 82).symm
    have hval : ((kPEFRelocLgByImport <<< 10) ||| ((i >>> 16) &&& 1023)) % 65536
        = 18432 + ((i >>> 16) &&& 1023) := by
      have hsh : kPEFRelocLgByImport <<< 10 = 83968 := by decide
      rw [hsh, hor]
      omega
    simp [emitByImport, hsmall, hval]

/-- C10 witness: index 300 fits the 10-bit operand but is emitted in the
two-word large form, with operand 0 in the first word and 300 in the
second. -/
theorem c10_emitByImport_threshold_witness :
    (300 : Nat) < 4294967296 ∧
      (((emitByImport 300).length = 1 ↔ (300 : Nat) < 256) ∧
        ((300 : Nat) < 256 → emitByImport 300 = [44032 + 300]) ∧
        ((256 : Nat) ≤ 300 →
          emitByImport 300 = [18432 + ((300 >>> 16) &&& 1023), 300 &&& 65535]) ∧
        ((256 : Nat) ≤ 300 → (emitByImport 300).length = 2)) :=
  ⟨by decide, c10_emitByImport_threshold 300 (by decide)⟩

/-! ### C5: import indices are not remapped -/

/-- C5.  Regenerating the stream of an input section whose only instruction
is SmByImport(3), placed at output offset 0, emits SetPosition(0) followed by
SmByImport(3): the per-input-file index 3 is passed through unchanged.  In
the scenario the file's import name table assigns index 3 the name D, and D
is the only remaining undefined symbol, so its assigned global output import
index (getImportIndex over the collected imports) is 0, not 3. -/
theorem c5_import_index_not_remapped :
    (processSection [(0, [44035])]
        { instructions := [], relocAddress := 0, sectionC := 0, sectionD := 1 }).instructions
      = [8192, 0, 44035] ∧
      44035 &&& 1023 = 3 ∧
      fileImportNames.getD 3 [] = [68] ∧
      getImportIndex (collectImports stOnlyD).1 (Symbol.undefined [68] 2 0) = 0 ∧
      (3 : Nat) ≠ 0 := by decide

/-! ### C8: layout monotonicity and alignment -/

lemma alignTo_ge (x a : Nat) (ha : 0 < a) : x ≤ alignTo x a := by
  unfold alignTo
  have h1 := Nat.div_add_mod (x + a - 1) a
  have h2 := Nat.mod_lt (x + a - 1) ha
  rw [Nat.mul_comm]
  omega

lemma alignTo_mod (x a : Nat) : alignTo x a % a = 0 :=
  Nat.mul_mod_left _ _

lemma finalizeLayoutAux_adjacent (va : Nat) (isecs : List InputSectionL) :
    ∀ (off i : Nat), i + 1 < isecs.length →
      (finalizeLayoutAux va off isecs).1.getD (i + 1) 0 ≥
          (finalizeLayoutAux va off isecs).1.getD i 0 +
            (isecs.getD i ⟨0, 0⟩).size ∧
        ((finalizeLayoutAux va off isecs).1.getD (i + 1) 0 - va) %
            2 ^ (isecs.getD (i + 1) ⟨0, 0⟩).alignLog = 0 := by
  induction isecs with
  | nil => intro off i h; simp at h
  | cons s rest ih =>
    intro off i h
    match i with
    | 0 =>
      match rest with
      | [] => simp at h
      | t :: ts =>
        simp only [finalizeLayoutAux, List.getD_cons_zero, List.getD_cons_succ]
        constructor
        · have hge := alignTo_ge (alignTo off (2 ^ s.alignLog) + s.size)
            (2 ^ t.alignLog) (Nat.pos_pow_of_pos _ (by norm_num))
          omega
        · have hmod := alignTo_mod (alignTo off (2 ^ s.alignLog) + s.size)
            (2 ^ t.alignLog)
          have hc : va + alignTo (alignTo off (2 ^ s.alignLog) + s.size)
              (2 ^ t.alignLog) - va
              = alignTo (alignTo off (2 ^ s.alignLog) + s.size) (2 ^ t.alignLog) := by
            omega
          rw [hc]
          exact hmod
    | j + 1 =>
      have h' : j + 1 < rest.length := by
        simp only [List.length_cons] at h
        omega
      have := ih (alignTo off (2 ^ s.alignLog) + s.size) j h'
      simpa only [finalizeLayoutAux, List.getD_cons_succ] using this

/-- C8 counterexample.  With code base 0, a code output of one 16-byte
section and a data output whose members have alignments 16 and 32, the data
output is placed at address 16 (the cursor is aligned to the initial
alignment 16, not to the members' maximum), and the second data member ends
at virtual address 48, which is not a multiple of its alignment 32 - the
claim fails for that adjacent pair. -/
theorem c8_alignment_counterexample :
    driverLayout cfgDefault [[⟨4, 16⟩], [⟨4, 4⟩, ⟨5, 4⟩], []]
        = [(0, [0]), (16, [16, 48])] ∧
      ¬ 48 % 2 ^ 5 = 0 := by decide

/-- C8 as amended.  For adjacent members A and B of the same output section,
B's virtual address is at least A's virtual address plus A's size, and B's
offset within the output section (its virtual address minus the section's)
is a multiple of B's alignment; B's absolute virtual address itself is a
multiple only when the output section's own address is, which the driver
does not guarantee. -/
theorem c8_layout_adjacent_amended (virtualAddress : Nat)
    (isecs : List InputSectionL) (i : Nat) (h : i + 1 < isecs.length) :
    (finalizeLayout virtualAddress isecs).1.getD (i + 1) 0 ≥
        (finalizeLayout virtualAddress isecs).1.getD i 0 +
          (isecs.getD i ⟨0, 0⟩).size ∧
      ((finalizeLayout virtualAddress isecs).1.getD (i + 1) 0 - virtualAddress) %
          2 ^ (isecs.getD (i + 1) ⟨0, 0⟩).alignLog = 0 := by
  unfold finalizeLayout
  exact finalizeLayoutAux_adjacent virtualAddress isecs 0 i h

/-- C8 witness: the data output at address 16 with members of alignments 16
and 32: the second member sits at 48, past 16 + 4, and its offset 32 within
the section is a multiple of 32. -/
theorem c8_layout_adjacent_amended_witness :
    0 + 1 < ([⟨4, 4⟩, ⟨5, 4⟩] : List InputSectionL).length ∧
      ((finalizeLayout 16 [⟨4, 4⟩, ⟨5, 4⟩]).1.getD 1 0 ≥
          (finalizeLayout 16 [⟨4, 4⟩, ⟨5, 4⟩]).1.getD 0 0 +
            (([⟨4, 4⟩, ⟨5, 4⟩] : List InputSectionL).getD 0 ⟨0, 0⟩).size ∧
        ((finalizeLayout 16 [⟨4, 4⟩, ⟨5, 4⟩]).1.getD 1 0 - 16) %
            2 ^ (([⟨4, 4⟩, ⟨5, 4⟩] : List InputSectionL).getD 1 ⟨0, 0⟩).alignLog = 0) :=
  ⟨by decide, c8_layout_adjacent_amended 16 [⟨4, 4⟩, ⟨5, 4⟩] 0 (by decide)⟩

/-! ### C4: shared-library export lookup -/

/-- C4 counterexample.  A library whose export table holds the symbol a at
index 0 but whose hash-slot word is zero: findExport returns none although
the export table contains a symbol of the queried name, so returning None is
not equivalent to absence from the export table. -/
theorem c4_findExport_counterexample :
    findExport libChainZeroInfo libChainZeroData [97] = none ∧
      exportedNameAt libChainZeroInfo libChainZeroData 0 = some [97] ∧
      0 < libChainZeroInfo.exportedSymbolCount := by decide

lemma scanExportChain_none_iff (info : LoaderInfo) (data name : List Nat)
    (hkeys : keyTableOffset info + info.exportedSymbolCount * 4 ≤ data.length)
    (hsyms : symbolTableOffset info + info.exportedSymbolCount * 10 ≤ data.length) :
    ∀ (rem keyIndex : Nat), keyIndex + rem ≤ info.exportedSymbolCount →
      (scanExportChain info data name (computePEFHash name) keyIndex rem = none ↔
        ∀ i, keyIndex ≤ i → i < keyIndex + rem →
          ¬ chainCandidate info data name i) := by
  intro rem
  induction rem with
  | zero =>
    intro keyIndex hle
    simp only [scanExportChain, true_iff]
    intro i h1 h2
    omega
  | succ r ih =>
    intro keyIndex hle
    have hki : keyIndex < info.exportedSymbolCount := by omega
    have hb1 : ¬ keyIndex ≥ info.exportedSymbolCount := by omega
    have hb2 : ¬ (keyTableOffset info + keyIndex * 4 + 4 > data.length) := by
      have h4 : keyIndex * 4 + 4 ≤ info.exportedSymbolCount * 4 := by omega
      omega
    have hb3 : ¬ (symbolTableOffset info + keyIndex * 10 + 10 > data.length) := by
      have h10 : keyIndex * 10 + 10 ≤ info.exportedSymbolCount * 10 := by omega
      omega
    simp only [scanExportChain]
    rw [if_neg hb1, if_neg hb2]
    by_cases hkey : read32be data (keyTableOffset info + keyIndex * 4)
        = computePEFHash name
    · rw [if_neg (by simpa using hkey), if_neg hb3]
      split
      next hs =>
        rw [ih (keyIndex + 1) (by omega)]
        constructor
        · intro hall i h1 h2
          rcases Nat.eq_or_lt_of_le h1 with heq | hlt
          · intro hc
            have hcn : exportedNameAt info data i = some name := hc.2
            rw [← heq] at hcn
            simp only [exportedNameAt] at hcn
            rw [hs] at hcn
            exact Option.noConfusion hcn
          · exact hall i hlt (by omega)
        · intro hall i h1 h2
          exact hall i (by omega) (by omega)
      next s hs =>
        split
        next hneq =>
          rw [ih (keyIndex + 1) (by omega)]
          constructor
          · intro hall i h1 h2
            rcases Nat.eq_or_lt_of_le h1 with heq | hlt
            · intro hc
              have hcn : exportedNameAt info data i = some name := hc.2
              rw [← heq] at hcn
              simp only [exportedNameAt] at hcn
              rw [hs] at hcn
              exact hneq (Option.some.inj hcn)
            · exact hall i hlt (by omega)
          · intro hall i h1 h2
            exact hall i (by omega) (by omega)
        next hneq =>
          have hname : s = name := not_not.mp hneq
          constructor
          · intro habs
            exact Option.noConfusion habs
          · intro hall
            exfalso
            apply hall keyIndex (le_refl _) (by omega)
            refine ⟨hkey, ?_⟩
            simp only [exportedNameAt]
            rw [hs, hname]
    · rw [if_pos (by simpa using hkey)]
      rw [ih (keyIndex + 1) (by omega)]
      constructor
      · intro hall i h1 h2
        rcases Nat.eq_or_lt_of_le h1 with heq | hlt
        · intro hc
          rw [← heq] at hc
          exact hkey hc.1
        · exact hall i hlt (by omega)
      · intro hall i h1 h2
        exact hall i (by omega) (by omega)

lemma scanExportChain_some (info : LoaderInfo) (data name : List Nat)
    (hkeys : keyTableOffset info + info.exportedSymbolCount * 4 ≤ data.length)
    (hsyms : symbolTableOffset info + info.exportedSymbolCount * 10 ≤ data.length) :
    ∀ (rem keyIndex : Nat), keyIndex + rem ≤ info.exportedSymbolCount →
      ∀ c, scanExportChain info data name (computePEFHash name) keyIndex rem
          = some c →
        ∃ i, keyIndex ≤ i ∧ i < keyIndex + rem ∧
          chainCandidate info data name i ∧
          c = read32be data (symbolTableOffset info + i * 10) >>> 24 := by
  intro rem
  induction rem with
  | zero =>
    intro keyIndex hle c hc
    simp only [scanExportChain] at hc
    exact Option.noConfusion hc
  | succ r ih =>
    intro keyIndex hle c hc
    have hki : keyIndex < info.exportedSymbolCount := by omega
    have hb1 : ¬ keyIndex ≥ info.exportedSymbolCount := by omega
    have hb2 : ¬ (keyTableOffset info + keyIndex * 4 + 4 > data.length) := by
      have h4 : keyIndex * 4 + 4 ≤ info.exportedSymbolCount * 4 := by omega
      omega
    have hb3 : ¬ (symbolTableOffset info + keyIndex * 10 + 10 > data.length) := by
      have h10 : keyIndex * 10 + 10 ≤ info.exportedSymbolCount * 10 := by omega
      omega
    simp only [scanExportChain] at hc
    rw [if_neg hb1, if_neg hb2] at hc
    by_cases hkey : read32be data (keyTableOffset info + keyIndex * 4)
        = computePEFHash name
    · rw [if_neg (by simpa using hkey), if_neg hb3] at hc
      split at hc
      next hs =>
        obtain ⟨i, hi1, hi2, hi3, hi4⟩ := ih (keyIndex + 1) (by omega) c hc
        exact ⟨i, by omega, by omega, hi3, hi4⟩
      next s hs =>
        split at hc
        next hneq =>
          obtain ⟨i, hi1, hi2, hi3, hi4⟩ := ih (keyIndex + 1) (by omega) c hc
          exact ⟨i, by omega, by omega, hi3, hi4⟩
        next hneq =>
          have hname : s = name := not_not.mp hneq
          refine ⟨keyIndex, le_refl _, by omega, ⟨hkey, ?_⟩, ?_⟩
          · simp only [exportedNameAt]
            rw [hs, hname]
          · exact (Option.some.inj hc).symm
    · rw [if_pos (by simpa using hkey)] at hc
      obtain ⟨i, hi1, hi2, hi3, hi4⟩ := ih (keyIndex + 1) (by omega) c hc
      exact ⟨i, by omega, by omega, hi3, hi4⟩

/-- The well-formed single-export library does resolve the name a, with
symbol class 2: the hypotheses of the amended lookup theorem are not vacuous. -/
lemma findExport_wellFormed_eval :
    findExport libWellFormedInfo libWellFormedData [97] = some 2 := by decide

/-- C4 as amended.  findExport indexes the slot table at the hash word
modulo 2 to the hash-table power, walks the slot's chain of key entries,
treats a key equal to the full hash word as a candidate, and confirms it by
reading the exported symbol's name from the loader string table; on match it
returns the symbol class only - the exported symbol's value and section
index are never read.  For a library whose slot chain lies inside the key
and symbol tables, the lookup returns None exactly when no chain entry has
both the matching hash word and the exact name. -/
theorem c4_findExport_characterization (info : LoaderInfo)
    (data name : List Nat)
    (hcount : 0 < info.exportedSymbolCount)
    (hslot : info.exportHashOffset +
        (computePEFHash name % 2 ^ info.exportHashTablePower) * 4 + 4 ≤ data.length)
    (hchain : getHashSlotFirstIndex (slotValueFor info data name) +
        getHashSlotChainCount (slotValueFor info data name) ≤
          info.exportedSymbolCount)
    (hkeys : keyTableOffset info + info.exportedSymbolCount * 4 ≤ data.length)
    (hsyms : symbolTableOffset info + info.exportedSymbolCount * 10 ≤ data.length) :
    (∀ c, findExport info data name = some c →
      ∃ i, getHashSlotFirstIndex (slotValueFor info data name) ≤ i ∧
        i < getHashSlotFirstIndex (slotValueFor info data name) +
            getHashSlotChainCount (slotValueFor info data name) ∧
        chainCandidate info data name i ∧
        c = read32be data (symbolTableOffset info + i * 10) >>> 24) ∧
    (findExport info data name = none ↔
      ∀ i, getHashSlotFirstIndex (slotValueFor info data name) ≤ i →
        i < getHashSlotFirstIndex (slotValueFor info data name) +
            getHashSlotChainCount (slotValueFor info data name) →
        ¬ chainCandidate info data name i) := by
  have hsv : slotValueFor info data name = read32be data
      (info.exportHashOffset +
        (computePEFHash name % 2 ^ info.exportHashTablePower) * 4) := rfl
  rw [hsv] at hchain ⊢
  simp only [findExport]
  rw [if_neg (by omega : ¬ info.exportedSymbolCount = 0),
    if_neg (by omega : ¬ (info.exportHashOffset +
      computePEFHash name % 2 ^ info.exportHashTablePower * 4 + 4 > data.length))]
  by_cases hcc : getHashSlotChainCount (read32be data
      (info.exportHashOffset +
        computePEFHash name % 2 ^ info.exportHashTablePower * 4)) = 0
  · rw [if_pos hcc, hcc]
    constructor
    · intro c h
      exact Option.noConfusion h
    · constructor
      · intro _ i h1 h2
        omega
      · intro _
        rfl
  · rw [if_neg hcc]
    constructor
    · intro c hc
      exact scanExportChain_some info data name hkeys hsyms _ _ hchain c hc
    · exact scanExportChain_none_iff info data name hkeys hsyms _ _ hchain

/-- C4 witness: the well-formed single-export library satisfies every
hypothesis, and the characterization holds there. -/
theorem c4_findExport_characterization_witness :
    (0 < libWellFormedInfo.exportedSymbolCount ∧
      libWellFormedInfo.exportHashOffset +
        (computePEFHash [97] % 2 ^ libWellFormedInfo.exportHashTablePower) * 4 + 4
          ≤ libWellFormedData.length ∧
      getHashSlotFirstIndex (slotValueFor libWellFormedInfo libWellFormedData [97]) +
        getHashSlotChainCount (slotValueFor libWellFormedInfo libWellFormedData [97])
          ≤ libWellFormedInfo.exportedSymbolCount ∧
      keyTableOffset libWellFormedInfo +
        libWellFormedInfo.exportedSymbolCount * 4 ≤ libWellFormedData.length ∧
      symbolTableOffset libWellFormedInfo +
        libWellFormedInfo.exportedSymbolCount * 10 ≤ libWellFormedData.length) ∧
    ((∀ c, findExport libWellFormedInfo libWellFormedData [97] = some c →
      ∃ i, getHashSlotFirstIndex (slotValueFor libWellFormedInfo libWellFormedData [97]) ≤ i ∧
        i < getHashSlotFirstIndex (slotValueFor libWellFormedInfo libWellFormedData [97]) +
            getHashSlotChainCount (slotValueFor libWellFormedInfo libWellFormedData [97]) ∧
        chainCandidate libWellFormedInfo libWellFormedData [97] i ∧
        c = read32be libWellFormedData
            (symbolTableOffset libWellFormedInfo + i * 10) >>> 24) ∧
    (findExport libWellFormedInfo libWellFormedData [97] = none ↔
      ∀ i, getHashSlotFirstIndex (slotValueFor libWellFormedInfo libWellFormedData [97]) ≤ i →
        i < getHashSlotFirstIndex (slotValueFor libWellFormedInfo libWellFormedData [97]) +
            getHashSlotChainCount (slotValueFor libWellFormedInfo libWellFormedData [97]) →
        ¬ chainCandidate libWellFormedInfo libWellFormedData [97] i)) :=
  ⟨⟨by decide, by decide, by decide, by decide, by decide⟩,
    c4_findExport_characterization libWellFormedInfo libWellFormedData [97]
      (by decide) (by decide) (by decide) (by decide) (by decide)⟩

end PEFLink
